import Mathlib

/-!
Verification of the batch-consume loop of `src/consumer/consumer_application.py`
(repository `python-kafka-cluster`).

The loop is embedded shallowly as trace-producing functions: every call into an
external collaborator (the user handler, and the broker session's
commit/open/close operations) and every sleep is recorded as an `Event`; the
outcome of each external call is supplied by a deterministic oracle (`World`).
Each function mirrors one piece of the Python source; line references are to
`consumer_application.py`.
-/

set_option maxHeartbeats 1000000

namespace KafkaConsumer

/-- A Kafka record as the loop uses it (`aiokafka.ConsumerRecord`): the loop
reads `msg.topic`, `msg.offset` and `msg.value`. -/
structure Message where
  topic : String
  offset : Nat
  value : String
deriving Repr, DecidableEq

/-- Topic-partition key (`aiokafka.TopicPartition`): topic name and
partition index. -/
abbrev TP := String × Nat

/-- One fetched batch (`consumer.getmany` result, line 44): an association
list from topic-partition to its fetched message sequence. -/
abbrev Batch := List (TP × List Message)

/-- Observable events of one consumer run: each call into the broker session
or the user handler (tagged with whether that particular call succeeded) and
each sleep, recorded in milliseconds. -/
inductive Event where
  | fetch : Event
  | handlerCall : TP → Nat → Bool → Event
  | commitCall : TP → Nat → Bool → Event
  | openCall : Bool → Event
  | closeCall : Bool → Event
  | sleepMs : Nat → Event
deriving Repr, DecidableEq

/-- Errors raised by the external collaborators (spec §7 taxonomy). -/
inductive Err where
  | handlerError : String → Err
  | commitError : String → Err
  | connectionError : String → Err
  | disconnectError : String → Err
deriving Repr, DecidableEq

deriving instance DecidableEq for Except

/-- Deterministic behaviour of the external collaborators: for each operation
the outcome (`none` = success, `some e` = raises `e`) of its `k`-th attempt
(0-based) inside one retry-wrapped call. The commit oracle is keyed by the
topic-partition and the requested offset. -/
structure World where
  handlerRes : TP → Message → Nat → Option Err
  commitRes : TP → Nat → Nat → Option Err
  openRes : Nat → Option Err
  closeRes : Nat → Option Err

/-- One attempt of an external operation: it emits one event recording whether
the attempt succeeded and returns the outcome given by the oracle `res`. -/
def opAttempt (mk : Bool → Event) (res : Nat → Option Err) (k : Nat) :
    List Event × Except Err Unit :=
  match res k with
  | none => ([mk true], Except.ok ())
  | some e => ([mk false], Except.error e)

/-- Modelled from the spec: the external `retry_async.retry` decorator behind
`_retry` (lines 11-14) — its source is not part of this repository. Per spec
§4.1 the wrapped operation is invoked; on failure with attempts remaining the
wrapper sleeps a fixed `delayMs` and retries the operation; the failure of the
last attempt is propagated unchanged. `k` is the index of the current attempt
and `fuel` the number of further attempts allowed after it. -/
def retryGo {α : Type} (delayMs : Nat) (att : Nat → List Event × Except Err α)
    (k : Nat) : Nat → List Event × Except Err α
  | 0 => att k
  | fuel + 1 =>
    match att k with
    | (tr, Except.ok a) => (tr, Except.ok a)
    | (tr, Except.error _) =>
      (tr ++ Event.sleepMs delayMs :: (retryGo delayMs att (k + 1) fuel).1,
        (retryGo delayMs att (k + 1) fuel).2)

/-- `_retry(tries=t, delay=d)(op)` with the delay converted to milliseconds;
`tries` is the total number of attempts. -/
def retryCall {α : Type} (tries delayMs : Nat)
    (att : Nat → List Event × Except Err α) : List Event × Except Err α :=
  retryGo delayMs att 0 (tries - 1)

/-- Lines 51-60: process one message — retry the handler (`tries=3, delay=5s`),
then, only on handler success, retry the commit of `msg.offset + 1`
(`tries=3, delay=5s`). A terminal failure of either step propagates. -/
def handleMessage (w : World) (tp : TP) (m : Message) :
    List Event × Except Err Unit :=
  let h := retryCall 3 5000 (opAttempt (Event.handlerCall tp m.offset) (w.handlerRes tp m))
  match h.2 with
  | Except.error e => (h.1, Except.error e)
  | Except.ok _ =>
    let c := retryCall 3 5000
      (opAttempt (Event.commitCall tp (m.offset + 1)) (w.commitRes tp (m.offset + 1)))
    (h.1 ++ c.1, c.2)

/-- Inner `for msg in messages` loop (lines 51-60): messages of one
topic-partition are processed in sequence; the first terminal failure aborts
the rest. -/
def processMessages (w : World) (tp : TP) : List Message → List Event × Except Err Unit
  | [] => ([], Except.ok ())
  | m :: ms =>
    match handleMessage w tp m with
    | (tr, Except.error e) => (tr, Except.error e)
    | (tr, Except.ok _) =>
      (tr ++ (processMessages w tp ms).1, (processMessages w tp ms).2)

/-- Lines 46-60: one `(tp, messages)` entry of the fetched batch. An empty
message list only sleeps `consumer_timeout_ms` milliseconds
(`asyncio.sleep(consumer_timeout_ms / 1000)`, line 48) and continues. -/
def processEntry (w : World) (timeoutMs : Nat) (ent : TP × List Message) :
    List Event × Except Err Unit :=
  if ent.2.isEmpty then ([Event.sleepMs timeoutMs], Except.ok ())
  else processMessages w ent.1 ent.2

/-- `for tp, messages in records.items()` (line 45): entries of one batch are
processed in the order returned; a terminal failure aborts the rest. -/
def processBatch (w : World) (timeoutMs : Nat) : Batch → List Event × Except Err Unit
  | [] => ([], Except.ok ())
  | ent :: es =>
    match processEntry w timeoutMs ent with
    | (tr, Except.error e) => (tr, Except.error e)
    | (tr, Except.ok _) =>
      (tr ++ (processBatch w timeoutMs es).1, (processBatch w timeoutMs es).2)

/-- The `while True` fetch loop of `_consume` (lines 42-60), run on the finite
prefix `bs` of batches the broker yields; returning `Except.ok` means the loop
is still running after having fully processed that prefix (the real loop never
terminates successfully). -/
def consume (w : World) (timeoutMs : Nat) : List Batch → List Event × Except Err Unit
  | [] => ([], Except.ok ())
  | b :: bs =>
    match processBatch w timeoutMs b with
    | (tr, Except.error e) => (Event.fetch :: tr, Except.error e)
    | (tr, Except.ok _) =>
      (Event.fetch :: tr ++ (consume w timeoutMs bs).1, (consume w timeoutMs bs).2)

/-- One attempt of `start` (lines 93-100): open the session with
`_retry(tries=3, delay=5)(consumer.start)`; if opening fails terminally the
error propagates without the `try` block ever being entered. Otherwise run the
consume loop and — per Python `finally` semantics — always attempt
`_retry(tries=3, delay=5)(consumer.stop)`; an error raised inside the
`finally` block replaces any in-flight error. -/
def startOnce (w : World) (timeoutMs : Nat) (bs : List Batch) :
    List Event × Except Err Unit :=
  let o := retryCall 3 5000 (opAttempt Event.openCall w.openRes)
  match o.2 with
  | Except.error e => (o.1, Except.error e)
  | Except.ok _ =>
    let body := consume w timeoutMs bs
    let cl := retryCall 3 5000 (opAttempt Event.closeCall w.closeRes)
    match cl.2 with
    | Except.error e2 => (o.1 ++ body.1 ++ cl.1, Except.error e2)
    | Except.ok _ => (o.1 ++ body.1 ++ cl.1, body.2)

/-- `start` with its decorator `@retry_async.retry(tries=3, delay=15)` (line
62): the whole open/consume/close sequence is retried up to 3 times, 15
seconds apart. Each outer attempt `k` sees the collaborator behaviour `ws k`
and the broker yields it the batch prefix `bss k`. -/
def start (ws : Nat → World) (timeoutMs : Nat) (bss : Nat → List Batch) :
    List Event × Except Err Unit :=
  retryCall 3 15000 (fun k => startOnce (ws k) timeoutMs (bss k))

/-! ### Observations on traces -/

/-- Offsets of the handler invocations recorded for topic-partition `tp`, in
trace order. -/
def handlerOffs (tp : TP) (tr : List Event) : List Nat :=
  tr.filterMap fun ev => match ev with
    | Event.handlerCall tp' o _ => if tp' = tp then some o else none
    | _ => none

/-- Offsets requested by the commit invocations recorded for topic-partition
`tp`, in trace order. -/
def commitReqs (tp : TP) (tr : List Event) : List Nat :=
  tr.filterMap fun ev => match ev with
    | Event.commitCall tp' q _ => if tp' = tp then some q else none
    | _ => none

/-- Number of commit invocations in a trace, over all topic-partitions. -/
def commitCount (tr : List Event) : Nat :=
  (tr.filter fun ev => match ev with
    | Event.commitCall _ _ _ => true
    | _ => false).length

/-- Number of session-close invocations in a trace. -/
def closeCount (tr : List Event) : Nat :=
  (tr.filter fun ev => match ev with
    | Event.closeCall _ => true
    | _ => false).length

/-- Offsets one batch entry contributes to topic-partition `tp`. -/
def entryOffs (tp : TP) (ent : TP × List Message) : List Nat :=
  if ent.1 = tp then ent.2.map Message.offset else []

/-- Offsets one batch contributes to topic-partition `tp`, in entry order. -/
def batchOffs (tp : TP) : Batch → List Nat
  | [] => []
  | ent :: es => entryOffs tp ent ++ batchOffs tp es

/-- All offsets fetched for topic-partition `tp` over a batch prefix, in fetch
order. -/
def fetchedOffs (tp : TP) : List Batch → List Nat
  | [] => []
  | b :: bs => batchOffs tp b ++ fetchedOffs tp bs

/-- No commit skips ahead of an unprocessed message: wherever the trace
records a commit request of `n` for `tp`, every fetched offset of `tp` below
`n` has a successful handler invocation strictly earlier in the trace. -/
def noSkip (tp : TP) (offs : List Nat) (tr : List Event) : Prop :=
  ∀ l n b r, tr = l ++ Event.commitCall tp n b :: r →
    ∀ o ∈ offs, o < n → Event.handlerCall tp o true ∈ l

/-- Invariant tying the trace and result of a loop fragment to the offsets
`offs` it was given to process for topic-partition `tp`. -/
def ConsumeInv (tp : TP) (offs : List Nat) (tr : List Event)
    (res : Except Err Unit) : Prop :=
  (∀ o ∈ handlerOffs tp tr, o ∈ offs) ∧
  (∀ q ∈ commitReqs tp tr, ∃ o ∈ offs, q = o + 1) ∧
  (handlerOffs tp tr).Pairwise (· ≤ ·) ∧
  (commitReqs tp tr).Pairwise (· ≤ ·) ∧
  noSkip tp offs tr ∧
  (res = Except.ok () → ∀ o ∈ offs, Event.handlerCall tp o true ∈ tr)

/-- Every event a loop fragment for topic-partition `tp₀` can emit. -/
def tpTagged (tp₀ : TP) (ev : Event) : Prop :=
  (∃ o b, ev = Event.handlerCall tp₀ o b) ∨
  (∃ q b, ev = Event.commitCall tp₀ q b) ∨ ∃ d, ev = Event.sleepMs d

/-! ### Concrete collaborators used to instantiate the theorems -/

/-- The `("orders", 0)` topic-partition of the spec's examples. -/
def tpOrders : TP := ("orders", 0)

/-- A message of the `orders` topic at offset `o`. -/
def msgAt (o : Nat) : Message := ⟨"orders", o, "v"⟩

/-- Collaborators that always succeed. -/
def wOk : World :=
  ⟨fun _ _ _ => none, fun _ _ _ => none, fun _ => none, fun _ => none⟩

/-- The handler always fails; everything else succeeds. -/
def wFailH : World :=
  ⟨fun _ _ _ => some (Err.handlerError "boom"), fun _ _ _ => none,
    fun _ => none, fun _ => none⟩

/-- The handler fails on its first two attempts and then succeeds. -/
def wThird : World :=
  ⟨fun _ _ k => if k < 2 then some (Err.handlerError "boom") else none,
    fun _ _ _ => none, fun _ => none, fun _ => none⟩

/-- The handler always fails and closing the session always fails too. -/
def wMask : World :=
  ⟨fun _ _ _ => some (Err.handlerError "boom"), fun _ _ _ => none,
    fun _ => none, fun _ => some (Err.disconnectError "bye")⟩

/-- Opening the session always fails; everything else succeeds. -/
def wOpenFail : World :=
  ⟨fun _ _ _ => none, fun _ _ _ => none,
    fun _ => some (Err.connectionError "down"), fun _ => none⟩

/-- The handler fails exactly on the message at offset 6. -/
def wFail6 : World :=
  ⟨fun _ m _ => if m.offset = 6 then some (Err.handlerError "boom") else none,
    fun _ _ _ => none, fun _ => none, fun _ => none⟩

/-- Concatenation of per-attempt traces with one fixed sleep of `d`
milliseconds between consecutive attempts. -/
def joinD (d : Nat) : List (List Event) → List Event
  | [] => []
  | [tr] => tr
  | tr :: trs => tr ++ Event.sleepMs d :: joinD d trs

/-! ### Unfolding lemmas for the retry wrapper -/

theorem retryGo_succ_err {α : Type} (d : Nat) (att : Nat → List Event × Except Err α)
    (k fuel : Nat) (tr : List Event) (e : Err) (h : att k = (tr, Except.error e)) :
    retryGo d att k (fuel + 1) =
      (tr ++ Event.sleepMs d :: (retryGo d att (k + 1) fuel).1,
        (retryGo d att (k + 1) fuel).2) := by
  simp [retryGo, h]

theorem retryGo_succ_ok {α : Type} (d : Nat) (att : Nat → List Event × Except Err α)
    (k fuel : Nat) (tr : List Event) (a : α) (h : att k = (tr, Except.ok a)) :
    retryGo d att k (fuel + 1) = (tr, Except.ok a) := by
  simp [retryGo, h]

theorem retryCall3_first_ok {α : Type} (d : Nat) (att : Nat → List Event × Except Err α)
    (tr : List Event) (a : α) (h : att 0 = (tr, Except.ok a)) :
    retryCall 3 d att = (tr, Except.ok a) := by
  show retryGo d att 0 2 = _
  rw [show (2 : Nat) = 1 + 1 from rfl, retryGo_succ_ok d att 0 1 tr a h]

theorem retryCall3_third {α : Type} (d : Nat) (att : Nat → List Event × Except Err α)
    (tr0 tr1 : List Event) (e0 e1 : Err) (h0 : att 0 = (tr0, Except.error e0))
    (h1 : att 1 = (tr1, Except.error e1)) :
    retryCall 3 d att =
      (tr0 ++ Event.sleepMs d :: (tr1 ++ Event.sleepMs d :: (att 2).1), (att 2).2) := by
  show retryGo d att 0 2 = _
  rw [show (2 : Nat) = 1 + 1 from rfl, retryGo_succ_err d att 0 1 tr0 e0 h0]
  rw [show (1 : Nat) = 0 + 1 from rfl, retryGo_succ_err d att 1 0 tr1 e1 h1]
  rfl

theorem opAttempt_ok (mk : Bool → Event) (res : Nat → Option Err) (k : Nat)
    (h : res k = none) : opAttempt mk res k = ([mk true], Except.ok ()) := by
  simp [opAttempt, h]

theorem opAttempt_err (mk : Bool → Event) (res : Nat → Option Err) (k : Nat) (e : Err)
    (h : res k = some e) : opAttempt mk res k = ([mk false], Except.error e) := by
  simp [opAttempt, h]

theorem retryOp_first_ok (mk : Bool → Event) (res : Nat → Option Err) (d : Nat)
    (h : res 0 = none) :
    retryCall 3 d (opAttempt mk res) = ([mk true], Except.ok ()) :=
  retryCall3_first_ok d _ _ _ (opAttempt_ok mk res 0 h)

theorem retryOp_third_ok (mk : Bool → Event) (res : Nat → Option Err) (d : Nat)
    (e0 e1 : Err) (h0 : res 0 = some e0) (h1 : res 1 = some e1) (h2 : res 2 = none) :
    retryCall 3 d (opAttempt mk res) =
      ([mk false, Event.sleepMs d, mk false, Event.sleepMs d, mk true],
        Except.ok ()) := by
  rw [retryCall3_third d _ _ _ _ _ (opAttempt_err mk res 0 e0 h0)
    (opAttempt_err mk res 1 e1 h1), opAttempt_ok mk res 2 h2]
  simp

theorem retryOp_all_fail (mk : Bool → Event) (res : Nat → Option Err) (d : Nat)
    (e0 e1 e2 : Err) (h0 : res 0 = some e0) (h1 : res 1 = some e1)
    (h2 : res 2 = some e2) :
    retryCall 3 d (opAttempt mk res) =
      ([mk false, Event.sleepMs d, mk false, Event.sleepMs d, mk false],
        Except.error e2) := by
  rw [retryCall3_third d _ _ _ _ _ (opAttempt_err mk res 0 e0 h0)
    (opAttempt_err mk res 1 e1 h1), opAttempt_err mk res 2 e2 h2]
  simp

/-! ### Generic facts about retry traces -/

theorem retryGo_mem {α : Type} (d : Nat) (att : Nat → List Event × Except Err α) :
    ∀ fuel k ev, ev ∈ (retryGo d att k fuel).1 →
      (∃ j, ev ∈ (att j).1) ∨ ev = Event.sleepMs d := by
  intro fuel
  induction fuel with
  | zero => intro k ev hev; exact Or.inl ⟨k, hev⟩
  | succ n ih =>
    intro k ev hev
    rcases h : att k with ⟨tr, res⟩
    cases res with
    | ok a =>
      rw [retryGo_succ_ok d att k n tr a h] at hev
      exact Or.inl ⟨k, h ▸ hev⟩
    | error e =>
      rw [retryGo_succ_err d att k n tr e h] at hev
      rcases List.mem_append.mp hev with h1 | h2
      · exact Or.inl ⟨k, h ▸ h1⟩
      · rcases List.mem_cons.mp h2 with h3 | h4
        · exact Or.inr h3
        · exact ih (k + 1) ev h4

theorem retryGo_ok_mem {α : Type} (d : Nat) (att : Nat → List Event × Except Err α) :
    ∀ fuel k a, (retryGo d att k fuel).2 = Except.ok a →
      ∃ j, (att j).2 = Except.ok a ∧ ∀ ev ∈ (att j).1, ev ∈ (retryGo d att k fuel).1 := by
  intro fuel
  induction fuel with
  | zero => intro k a hok; exact ⟨k, hok, fun ev hev => hev⟩
  | succ n ih =>
    intro k a hok
    rcases h : att k with ⟨tr, res⟩
    cases res with
    | ok b =>
      rw [retryGo_succ_ok d att k n tr b h] at hok ⊢
      refine ⟨k, ?_, ?_⟩
      · rw [h]; exact hok
      · intro ev hev; rw [h] at hev; exact hev
    | error e =>
      rw [retryGo_succ_err d att k n tr e h] at hok ⊢
      rcases ih (k + 1) a hok with ⟨j, hj, hmem⟩
      exact ⟨j, hj, fun ev hev =>
        List.mem_append.mpr (Or.inr (List.mem_cons.mpr (Or.inr (hmem ev hev))))⟩

theorem retryOp_mem (mk : Bool → Event) (res : Nat → Option Err) (t d : Nat) (ev : Event)
    (hev : ev ∈ (retryCall t d (opAttempt mk res)).1) :
    (∃ b, ev = mk b) ∨ ev = Event.sleepMs d := by
  rcases retryGo_mem d (opAttempt mk res) (t - 1) 0 ev hev with ⟨j, hj⟩ | h
  · rcases h : res j with _ | e
    · rw [opAttempt_ok mk res j h] at hj
      exact Or.inl ⟨true, (List.mem_singleton.mp hj)⟩
    · rw [opAttempt_err mk res j e h] at hj
      exact Or.inl ⟨false, (List.mem_singleton.mp hj)⟩
  · exact Or.inr h

theorem retryOp_ok_mem (mk : Bool → Event) (res : Nat → Option Err) (t d : Nat)
    (hok : (retryCall t d (opAttempt mk res)).2 = Except.ok ()) :
    mk true ∈ (retryCall t d (opAttempt mk res)).1 := by
  rcases retryGo_ok_mem d (opAttempt mk res) (t - 1) 0 () hok with ⟨j, hj, hmem⟩
  rcases h : res j with _ | e
  · exact hmem (mk true) (by rw [opAttempt_ok mk res j h]; exact List.mem_singleton.mpr rfl)
  · rw [opAttempt_err mk res j e h] at hj; cases hj

/-! ### List helpers -/

theorem split_middle {β : Type} :
    ∀ (xs : List β) (ys l : List β) (e : β) (r : List β), xs ++ ys = l ++ e :: r →
      (∃ r₂, xs = l ++ e :: r₂ ∧ r = r₂ ++ ys) ∨
      (∃ l₂, l = xs ++ l₂ ∧ ys = l₂ ++ e :: r) := by
  intro xs
  induction xs with
  | nil => intro ys l e r h; exact Or.inr ⟨l, rfl, h⟩
  | cons x xs ih =>
    intro ys l e r h
    cases l with
    | nil =>
      rcases List.cons.injEq x (xs ++ ys) e r ▸ h with ⟨hx, hrest⟩
      exact Or.inl ⟨xs, by rw [hx]; rfl, hrest.symm⟩
    | cons y l' =>
      rcases List.cons.injEq x (xs ++ ys) y (l' ++ e :: r) ▸ h with ⟨hx, hrest⟩
      rcases ih ys l' e r hrest with ⟨r₂, h1, h2⟩ | ⟨l₂, h1, h2⟩
      · exact Or.inl ⟨r₂, by rw [hx, h1]; rfl, h2⟩
      · exact Or.inr ⟨l₂, by rw [hx, h1]; rfl, h2⟩

theorem pairwise_le_const (c : Nat) :
    ∀ L : List Nat, (∀ x ∈ L, x = c) → L.Pairwise (· ≤ ·) := by
  intro L
  induction L with
  | nil => intro _; exact List.Pairwise.nil
  | cons a L ih =>
    intro h
    refine List.Pairwise.cons ?_ (ih fun x hx => h x (List.mem_cons_of_mem a hx))
    intro b hb
    rw [h a (List.mem_cons_self a L), h b (List.mem_cons_of_mem a hb)]

/-! ### Projection lemmas -/

theorem handlerOffs_append (tp : TP) (a b : List Event) :
    handlerOffs tp (a ++ b) = handlerOffs tp a ++ handlerOffs tp b :=
  List.filterMap_append a b _

theorem commitReqs_append (tp : TP) (a b : List Event) :
    commitReqs tp (a ++ b) = commitReqs tp a ++ commitReqs tp b :=
  List.filterMap_append a b _

theorem mem_handlerOffs (tp : TP) (o : Nat) (tr : List Event) :
    o ∈ handlerOffs tp tr ↔ ∃ b, Event.handlerCall tp o b ∈ tr := by
  unfold handlerOffs
  rw [List.mem_filterMap]
  constructor
  · rintro ⟨ev, hev, hsome⟩
    cases ev with
    | handlerCall tp' o' b =>
      by_cases htp : tp' = tp
      · rw [show (match Event.handlerCall tp' o' b with
            | Event.handlerCall tp' o _ => if tp' = tp then some o else none
            | _ => none) = if tp' = tp then some o' else none from rfl,
          if_pos htp] at hsome
        injection hsome with ho
        subst htp; subst ho
        exact ⟨b, hev⟩
      · rw [show (match Event.handlerCall tp' o' b with
            | Event.handlerCall tp' o _ => if tp' = tp then some o else none
            | _ => none) = if tp' = tp then some o' else none from rfl,
          if_neg htp] at hsome
        cases hsome
    | fetch => cases hsome
    | commitCall tp' q b => cases hsome
    | openCall b => cases hsome
    | closeCall b => cases hsome
    | sleepMs ms => cases hsome
  · rintro ⟨b, hb⟩
    exact ⟨Event.handlerCall tp o b, hb, by simp⟩

theorem mem_commitReqs (tp : TP) (q : Nat) (tr : List Event) :
    q ∈ commitReqs tp tr ↔ ∃ b, Event.commitCall tp q b ∈ tr := by
  unfold commitReqs
  rw [List.mem_filterMap]
  constructor
  · rintro ⟨ev, hev, hsome⟩
    cases ev with
    | commitCall tp' q' b =>
      by_cases htp : tp' = tp
      · rw [show (match Event.commitCall tp' q' b with
            | Event.commitCall tp' q _ => if tp' = tp then some q else none
            | _ => none) = if tp' = tp then some q' else none from rfl,
          if_pos htp] at hsome
        injection hsome with hq
        subst htp; subst hq
        exact ⟨b, hev⟩
      · rw [show (match Event.commitCall tp' q' b with
            | Event.commitCall tp' q _ => if tp' = tp then some q else none
            | _ => none) = if tp' = tp then some q' else none from rfl,
          if_neg htp] at hsome
        cases hsome
    | fetch => cases hsome
    | handlerCall tp' o b => cases hsome
    | openCall b => cases hsome
    | closeCall b => cases hsome
    | sleepMs ms => cases hsome
  · rintro ⟨b, hb⟩
    exact ⟨Event.commitCall tp q b, hb, by simp⟩

/-! ### Composition lemmas for the consume invariant -/

theorem inv_of_no_tp_events (tp : TP) (tr : List Event) (res : Except Err Unit)
    (h1 : handlerOffs tp tr = []) (h2 : commitReqs tp tr = []) :
    ConsumeInv tp [] tr res := by
  refine ⟨?_, ?_, ?_, ?_, ?_, ?_⟩
  · intro o ho; rw [h1] at ho; cases ho
  · intro q hq; rw [h2] at hq; cases hq
  · rw [h1]; exact List.Pairwise.nil
  · rw [h2]; exact List.Pairwise.nil
  · intro l n b r _ o ho; cases ho
  · intro _ o ho; cases ho

theorem commit_excluded (tp : TP) (offs₁ offs₂ : List Nat) (tr₁ : List Event)
    (n o : Nat) (b : Bool)
    (A2 : ∀ q ∈ commitReqs tp tr₁, ∃ o' ∈ offs₁, q = o' + 1)
    (cross : ∀ a ∈ offs₁, ∀ c ∈ offs₂, a < c)
    (hmem : Event.commitCall tp n b ∈ tr₁) (ho : o ∈ offs₂) (holt : o < n) : False := by
  rcases A2 n ((mem_commitReqs tp n tr₁).mpr ⟨b, hmem⟩) with ⟨o', ho', hn⟩
  have := cross o' ho' o ho
  omega

theorem inv_append (tp : TP) (offs₁ offs₂ : List Nat) (tr₁ tr₂ : List Event)
    (res₂ : Except Err Unit) (hasc : (offs₁ ++ offs₂).Pairwise (· < ·))
    (h1 : ConsumeInv tp offs₁ tr₁ (Except.ok ()))
    (h2 : ConsumeInv tp offs₂ tr₂ res₂) :
    ConsumeInv tp (offs₁ ++ offs₂) (tr₁ ++ tr₂) res₂ := by
  obtain ⟨A1, A2, A3, A4, A5, A6⟩ := h1
  obtain ⟨B1, B2, B3, B4, B5, B6⟩ := h2
  have cross : ∀ a ∈ offs₁, ∀ c ∈ offs₂, a < c := (List.pairwise_append.mp hasc).2.2
  refine ⟨?_, ?_, ?_, ?_, ?_, ?_⟩
  · intro o ho
    rw [handlerOffs_append] at ho
    rcases List.mem_append.mp ho with h | h
    · exact List.mem_append_left _ (A1 o h)
    · exact List.mem_append_right _ (B1 o h)
  · intro q hq
    rw [commitReqs_append] at hq
    rcases List.mem_append.mp hq with h | h
    · rcases A2 q h with ⟨o, ho, hqo⟩
      exact ⟨o, List.mem_append_left _ ho, hqo⟩
    · rcases B2 q h with ⟨o, ho, hqo⟩
      exact ⟨o, List.mem_append_right _ ho, hqo⟩
  · rw [handlerOffs_append]
    refine List.pairwise_append.mpr ⟨A3, B3, ?_⟩
    intro a ha c hc
    exact le_of_lt (cross a (A1 a ha) c (B1 c hc))
  · rw [commitReqs_append]
    refine List.pairwise_append.mpr ⟨A4, B4, ?_⟩
    intro a ha c hc
    rcases A2 a ha with ⟨o₁, ho₁, rfl⟩
    rcases B2 c hc with ⟨o₂, ho₂, rfl⟩
    exact Nat.succ_le_succ (le_of_lt (cross o₁ ho₁ o₂ ho₂))
  · intro l n b r heq o ho holt
    rcases split_middle tr₁ tr₂ l (Event.commitCall tp n b) r heq with
      ⟨r₂, htr₁, _⟩ | ⟨l₂, hl, htr₂⟩
    · have hmem : Event.commitCall tp n b ∈ tr₁ := by
        rw [htr₁]; exact List.mem_append_right _ (List.mem_cons_self _ _)
      rcases List.mem_append.mp ho with h | h
      · exact A5 l n b r₂ htr₁ o h holt
      · exact (commit_excluded tp offs₁ offs₂ tr₁ n o b A2 cross hmem h holt).elim
    · rcases List.mem_append.mp ho with h | h
      · rw [hl]
        exact List.mem_append_left _ (A6 rfl o h)
      · rw [hl]
        exact List.mem_append_right _ (B5 l₂ n b r htr₂ o h holt)
  · intro hres o ho
    rcases List.mem_append.mp ho with h | h
    · exact List.mem_append_left _ (A6 rfl o h)
    · exact List.mem_append_right _ (B6 hres o h)

theorem inv_error_widen (tp : TP) (offs₁ offs₂ : List Nat) (tr₁ : List Event) (e : Err)
    (hasc : (offs₁ ++ offs₂).Pairwise (· < ·))
    (h1 : ConsumeInv tp offs₁ tr₁ (Except.error e)) :
    ConsumeInv tp (offs₁ ++ offs₂) tr₁ (Except.error e) := by
  obtain ⟨A1, A2, A3, A4, A5, _⟩ := h1
  have cross : ∀ a ∈ offs₁, ∀ c ∈ offs₂, a < c := (List.pairwise_append.mp hasc).2.2
  refine ⟨?_, ?_, A3, A4, ?_, ?_⟩
  · intro o ho
    exact List.mem_append_left _ (A1 o ho)
  · intro q hq
    rcases A2 q hq with ⟨o, ho, hqo⟩
    exact ⟨o, List.mem_append_left _ ho, hqo⟩
  · intro l n b r heq o ho holt
    have hmem : Event.commitCall tp n b ∈ tr₁ := by
      rw [heq]; exact List.mem_append_right _ (List.mem_cons_self _ _)
    rcases List.mem_append.mp ho with h | h
    · exact A5 l n b r heq o h holt
    · exact (commit_excluded tp offs₁ offs₂ tr₁ n o b A2 cross hmem h holt).elim
  · intro hres; cases hres

/-! ### Unfolding lemmas for the loop -/

theorem processMessages_cons_err (w : World) (tp : TP) (m : Message) (ms : List Message)
    (tr : List Event) (e : Err) (h : handleMessage w tp m = (tr, Except.error e)) :
    processMessages w tp (m :: ms) = (tr, Except.error e) := by
  simp [processMessages, h]

theorem processMessages_cons_ok (w : World) (tp : TP) (m : Message) (ms : List Message)
    (tr : List Event) (h : handleMessage w tp m = (tr, Except.ok ())) :
    processMessages w tp (m :: ms) =
      (tr ++ (processMessages w tp ms).1, (processMessages w tp ms).2) := by
  simp [processMessages, h]

theorem processEntry_nil (w : World) (t : Nat) (tp₀ : TP) :
    processEntry w t (tp₀, []) = ([Event.sleepMs t], Except.ok ()) := by
  simp [processEntry]

theorem processEntry_cons (w : World) (t : Nat) (tp₀ : TP) (m : Message)
    (ms : List Message) :
    processEntry w t (tp₀, m :: ms) = processMessages w tp₀ (m :: ms) := by
  simp [processEntry]

theorem processBatch_cons_err (w : World) (t : Nat) (ent : TP × List Message) (es : Batch)
    (tr : List Event) (e : Err) (h : processEntry w t ent = (tr, Except.error e)) :
    processBatch w t (ent :: es) = (tr, Except.error e) := by
  simp [processBatch, h]

theorem processBatch_cons_ok (w : World) (t : Nat) (ent : TP × List Message) (es : Batch)
    (tr : List Event) (h : processEntry w t ent = (tr, Except.ok ())) :
    processBatch w t (ent :: es) =
      (tr ++ (processBatch w t es).1, (processBatch w t es).2) := by
  simp [processBatch, h]

theorem consume_cons_err (w : World) (t : Nat) (b : Batch) (bs : List Batch)
    (tr : List Event) (e : Err) (h : processBatch w t b = (tr, Except.error e)) :
    consume w t (b :: bs) = (Event.fetch :: tr, Except.error e) := by
  simp [consume, h]

theorem consume_cons_ok (w : World) (t : Nat) (b : Batch) (bs : List Batch)
    (tr : List Event) (h : processBatch w t b = (tr, Except.ok ())) :
    consume w t (b :: bs) =
      (Event.fetch :: tr ++ (consume w t bs).1, (consume w t bs).2) := by
  simp [consume, h]

theorem handleMessage_err (w : World) (tp : TP) (m : Message) (tr : List Event) (e : Err)
    (h : retryCall 3 5000 (opAttempt (Event.handlerCall tp m.offset) (w.handlerRes tp m)) =
      (tr, Except.error e)) :
    handleMessage w tp m = (tr, Except.error e) := by
  simp [handleMessage, h]

theorem handleMessage_ok (w : World) (tp : TP) (m : Message) (tr : List Event)
    (h : retryCall 3 5000 (opAttempt (Event.handlerCall tp m.offset) (w.handlerRes tp m)) =
      (tr, Except.ok ())) :
    handleMessage w tp m =
      (tr ++ (retryCall 3 5000 (opAttempt (Event.commitCall tp (m.offset + 1))
          (w.commitRes tp (m.offset + 1)))).1,
        (retryCall 3 5000 (opAttempt (Event.commitCall tp (m.offset + 1))
          (w.commitRes tp (m.offset + 1)))).2) := by
  simp [handleMessage, h]

/-! ### Event shapes of loop traces -/

theorem hm_events (w : World) (tp₀ : TP) (m : Message) :
    ∀ ev ∈ (handleMessage w tp₀ m).1,
      (∃ b, ev = Event.handlerCall tp₀ m.offset b) ∨
      (∃ b, ev = Event.commitCall tp₀ (m.offset + 1) b) ∨ ev = Event.sleepMs 5000 := by
  intro ev hev
  rcases hh : retryCall 3 5000
      (opAttempt (Event.handlerCall tp₀ m.offset) (w.handlerRes tp₀ m)) with ⟨htr, hres⟩
  cases hres with
  | error e =>
    rw [handleMessage_err w tp₀ m htr e hh] at hev
    rcases retryOp_mem (Event.handlerCall tp₀ m.offset) (w.handlerRes tp₀ m) 3 5000 ev
        (by rw [hh]; exact hev) with ⟨b, hb⟩ | hs
    · exact Or.inl ⟨b, hb⟩
    · exact Or.inr (Or.inr hs)
  | ok u =>
    cases u
    rw [handleMessage_ok w tp₀ m htr hh] at hev
    rcases List.mem_append.mp hev with h | h
    · rcases retryOp_mem (Event.handlerCall tp₀ m.offset) (w.handlerRes tp₀ m) 3 5000 ev
          (by rw [hh]; exact h) with ⟨b, hb⟩ | hs
      · exact Or.inl ⟨b, hb⟩
      · exact Or.inr (Or.inr hs)
    · rcases retryOp_mem (Event.commitCall tp₀ (m.offset + 1))
          (w.commitRes tp₀ (m.offset + 1)) 3 5000 ev h with ⟨b, hb⟩ | hs
      · exact Or.inr (Or.inl ⟨b, hb⟩)
      · exact Or.inr (Or.inr hs)

theorem hm_tagged (w : World) (tp₀ : TP) (m : Message) :
    ∀ ev ∈ (handleMessage w tp₀ m).1, tpTagged tp₀ ev := by
  intro ev hev
  rcases hm_events w tp₀ m ev hev with ⟨b, hb⟩ | ⟨b, hb⟩ | hs
  · exact Or.inl ⟨m.offset, b, hb⟩
  · exact Or.inr (Or.inl ⟨m.offset + 1, b, hb⟩)
  · exact Or.inr (Or.inr ⟨5000, hs⟩)

theorem pm_tagged (w : World) (tp₀ : TP) :
    ∀ ms : List Message, ∀ ev ∈ (processMessages w tp₀ ms).1, tpTagged tp₀ ev := by
  intro ms
  induction ms with
  | nil => intro ev hev; cases hev
  | cons m ms ih =>
    intro ev hev
    rcases hh : handleMessage w tp₀ m with ⟨tr, res⟩
    cases res with
    | error e =>
      rw [processMessages_cons_err w tp₀ m ms tr e hh] at hev
      exact hm_tagged w tp₀ m ev (by rw [hh]; exact hev)
    | ok u =>
      cases u
      rw [processMessages_cons_ok w tp₀ m ms tr hh] at hev
      rcases List.mem_append.mp hev with h | h
      · exact hm_tagged w tp₀ m ev (by rw [hh]; exact h)
      · exact ih ev h

theorem tagged_foreign (tp tp₀ : TP) (hne : tp₀ ≠ tp) (tr : List Event)
    (h : ∀ ev ∈ tr, tpTagged tp₀ ev) :
    handlerOffs tp tr = [] ∧ commitReqs tp tr = [] := by
  constructor
  · refine List.eq_nil_iff_forall_not_mem.mpr fun o ho => ?_
    rcases (mem_handlerOffs tp o tr).mp ho with ⟨b, hb⟩
    rcases h _ hb with ⟨o', b', hev⟩ | ⟨q', b', hev⟩ | ⟨d', hev⟩
    · injection hev with h1 _ _; exact hne h1.symm
    · cases hev
    · cases hev
  · refine List.eq_nil_iff_forall_not_mem.mpr fun q hq => ?_
    rcases (mem_commitReqs tp q tr).mp hq with ⟨b, hb⟩
    rcases h _ hb with ⟨o', b', hev⟩ | ⟨q', b', hev⟩ | ⟨d', hev⟩
    · cases hev
    · injection hev with h1 _ _; exact hne h1.symm
    · cases hev

theorem no_commit_split (tp : TP) (tr : List Event) (h : commitReqs tp tr = [])
    (l : List Event) (n : Nat) (b : Bool) (r : List Event)
    (heq : tr = l ++ Event.commitCall tp n b :: r) : False := by
  have hn : n ∈ commitReqs tp tr := (mem_commitReqs tp n tr).mpr
    ⟨b, by rw [heq]; exact List.mem_append_right _ (List.mem_cons_self _ _)⟩
  rw [h] at hn
  cases hn

/-! ### The consume invariant, level by level -/

theorem retryH_facts (tp : TP) (c : Nat) (res : Nat → Option Err) (d t : Nat) :
    (∀ o ∈ handlerOffs tp (retryCall t d (opAttempt (Event.handlerCall tp c) res)).1,
      o = c) ∧
    commitReqs tp (retryCall t d (opAttempt (Event.handlerCall tp c) res)).1 = [] := by
  constructor
  · intro o ho
    rcases (mem_handlerOffs tp o _).mp ho with ⟨b, hb⟩
    rcases retryOp_mem (Event.handlerCall tp c) res t d _ hb with ⟨b', hb'⟩ | hs
    · injection hb' with h1 h2 h3
    · cases hs
  · refine List.eq_nil_iff_forall_not_mem.mpr fun q hq => ?_
    rcases (mem_commitReqs tp q _).mp hq with ⟨b, hb⟩
    rcases retryOp_mem (Event.handlerCall tp c) res t d _ hb with ⟨b', hb'⟩ | hs
    · cases hb'
    · cases hs

theorem retryC_facts (tp : TP) (c : Nat) (res : Nat → Option Err) (d t : Nat) :
    (∀ q ∈ commitReqs tp (retryCall t d (opAttempt (Event.commitCall tp c) res)).1,
      q = c) ∧
    handlerOffs tp (retryCall t d (opAttempt (Event.commitCall tp c) res)).1 = [] := by
  constructor
  · intro q hq
    rcases (mem_commitReqs tp q _).mp hq with ⟨b, hb⟩
    rcases retryOp_mem (Event.commitCall tp c) res t d _ hb with ⟨b', hb'⟩ | hs
    · injection hb' with h1 h2 h3
    · cases hs
  · refine List.eq_nil_iff_forall_not_mem.mpr fun o ho => ?_
    rcases (mem_handlerOffs tp o _).mp ho with ⟨b, hb⟩
    rcases retryOp_mem (Event.commitCall tp c) res t d _ hb with ⟨b', hb'⟩ | hs
    · cases hb'
    · cases hs

theorem hm_inv (w : World) (tp : TP) (m : Message) :
    ConsumeInv tp [m.offset] (handleMessage w tp m).1 (handleMessage w tp m).2 := by
  rcases hh : retryCall 3 5000
      (opAttempt (Event.handlerCall tp m.offset) (w.handlerRes tp m)) with ⟨htr, hres⟩
  have hHf := retryH_facts tp m.offset (w.handlerRes tp m) 5000 3
  rw [hh] at hHf
  cases hres with
  | error e =>
    rw [handleMessage_err w tp m htr e hh]
    refine ⟨?_, ?_, ?_, ?_, ?_, ?_⟩
    · intro o ho
      rw [hHf.1 o ho]
      exact List.mem_singleton.mpr rfl
    · intro q hq; rw [hHf.2] at hq; cases hq
    · exact pairwise_le_const m.offset _ hHf.1
    · rw [hHf.2]; exact List.Pairwise.nil
    · intro l n b r heq o ho holt
      exact (no_commit_split tp htr hHf.2 l n b r heq).elim
    · intro hres'; cases hres'
  | ok u =>
    cases u
    rw [handleMessage_ok w tp m htr hh]
    have hCf := retryC_facts tp (m.offset + 1) (w.commitRes tp (m.offset + 1)) 5000 3
    have htrue : Event.handlerCall tp m.offset true ∈ htr := by
      have h2 : (retryCall 3 5000
          (opAttempt (Event.handlerCall tp m.offset) (w.handlerRes tp m))).2 =
          Except.ok () := by rw [hh]
      have := retryOp_ok_mem (Event.handlerCall tp m.offset) (w.handlerRes tp m) 3 5000 h2
      rw [hh] at this
      exact this
    refine ⟨?_, ?_, ?_, ?_, ?_, ?_⟩
    · intro o ho
      rw [handlerOffs_append] at ho
      rcases List.mem_append.mp ho with h | h
      · rw [hHf.1 o h]; exact List.mem_singleton.mpr rfl
      · rw [hCf.2] at h; cases h
    · intro q hq
      rw [commitReqs_append] at hq
      rcases List.mem_append.mp hq with h | h
      · rw [hHf.2] at h; cases h
      · exact ⟨m.offset, List.mem_singleton.mpr rfl, hCf.1 q h⟩
    · rw [handlerOffs_append, hCf.2, List.append_nil]
      exact pairwise_le_const m.offset _ hHf.1
    · rw [commitReqs_append, hHf.2, List.nil_append]
      exact pairwise_le_const (m.offset + 1) _ hCf.1
    · intro l n b r heq o ho holt
      rcases split_middle htr _ l (Event.commitCall tp n b) r heq with
        ⟨r₂, htr₁, _⟩ | ⟨l₂, hl, _⟩
      · exact (no_commit_split tp htr hHf.2 l n b r₂ htr₁).elim
      · rw [hl]
        exact List.mem_append_left _ ((List.mem_singleton.mp ho) ▸ htrue)
    · intro _ o ho
      exact List.mem_append_left _ ((List.mem_singleton.mp ho) ▸ htrue)

theorem pm_inv (w : World) (tp : TP) :
    ∀ ms : List Message, (ms.map Message.offset).Pairwise (· < ·) →
      ConsumeInv tp (ms.map Message.offset) (processMessages w tp ms).1
        (processMessages w tp ms).2 := by
  intro ms
  induction ms with
  | nil =>
    intro _
    exact inv_of_no_tp_events tp [] _ rfl rfl
  | cons m ms ih =>
    intro hasc
    have hasc' : ([m.offset] ++ ms.map Message.offset).Pairwise (· < ·) := by
      simpa using hasc
    rcases hh : handleMessage w tp m with ⟨tr, res⟩
    have hinv : ConsumeInv tp [m.offset] tr res := by
      have := hm_inv w tp m
      rw [hh] at this
      exact this
    cases res with
    | error e =>
      rw [processMessages_cons_err w tp m ms tr e hh]
      have := inv_error_widen tp [m.offset] (ms.map Message.offset) tr e hasc' hinv
      simpa using this
    | ok u =>
      cases u
      rw [processMessages_cons_ok w tp m ms tr hh]
      have := inv_append tp [m.offset] (ms.map Message.offset) tr
        (processMessages w tp ms).1 (processMessages w tp ms).2 hasc' hinv
        (ih (List.pairwise_cons.mp hasc).2)
      simpa using this

theorem entryOffs_nil_msgs (tp tp₀ : TP) : entryOffs tp (tp₀, []) = [] := by
  unfold entryOffs
  split <;> rfl

theorem entry_inv (w : World) (tp : TP) (t : Nat) (ent : TP × List Message)
    (hasc : (entryOffs tp ent).Pairwise (· < ·)) :
    ConsumeInv tp (entryOffs tp ent) (processEntry w t ent).1 (processEntry w t ent).2 := by
  rcases ent with ⟨tp₀, msgs⟩
  cases msgs with
  | nil =>
    rw [processEntry_nil w t tp₀, entryOffs_nil_msgs tp tp₀]
    exact inv_of_no_tp_events tp _ _ rfl rfl
  | cons m ms =>
    rw [processEntry_cons w t tp₀ m ms]
    by_cases htp : tp₀ = tp
    · subst htp
      have hoffs : entryOffs tp₀ (tp₀, m :: ms) = (m :: ms).map Message.offset := by
        unfold entryOffs; rw [if_pos rfl]
      rw [hoffs] at hasc ⊢
      exact pm_inv w tp₀ (m :: ms) hasc
    · have hoffs : entryOffs tp (tp₀, m :: ms) = [] := by
        unfold entryOffs; rw [if_neg htp]
      rw [hoffs]
      have hfor := tagged_foreign tp tp₀ htp _ (pm_tagged w tp₀ (m :: ms))
      exact inv_of_no_tp_events tp _ _ hfor.1 hfor.2

theorem inv_prepend (tp : TP) (offs : List Nat) (tr₀ tr : List Event)
    (res : Except Err Unit) (hasc : offs.Pairwise (· < ·))
    (h1 : handlerOffs tp tr₀ = []) (h2 : commitReqs tp tr₀ = [])
    (h : ConsumeInv tp offs tr res) : ConsumeInv tp offs (tr₀ ++ tr) res := by
  have := inv_append tp [] offs tr₀ tr res (by simpa using hasc)
    (inv_of_no_tp_events tp tr₀ (Except.ok ()) h1 h2) h
  simpa using this

theorem batch_inv (w : World) (tp : TP) (t : Nat) :
    ∀ b : Batch, (batchOffs tp b).Pairwise (· < ·) →
      ConsumeInv tp (batchOffs tp b) (processBatch w t b).1 (processBatch w t b).2 := by
  intro b
  induction b with
  | nil =>
    intro _
    exact inv_of_no_tp_events tp [] _ rfl rfl
  | cons ent es ih =>
    intro hasc
    rcases he : processEntry w t ent with ⟨trE, resE⟩
    have hinv : ConsumeInv tp (entryOffs tp ent) trE resE := by
      have := entry_inv w tp t ent (List.pairwise_append.mp hasc).1
      rw [he] at this
      exact this
    cases resE with
    | error e =>
      rw [processBatch_cons_err w t ent es trE e he]
      exact inv_error_widen tp (entryOffs tp ent) (batchOffs tp es) trE e hasc hinv
    | ok u =>
      cases u
      rw [processBatch_cons_ok w t ent es trE he]
      exact inv_append tp (entryOffs tp ent) (batchOffs tp es) trE
        (processBatch w t es).1 (processBatch w t es).2 hasc hinv
        (ih (List.pairwise_append.mp hasc).2.1)

theorem consume_inv (w : World) (tp : TP) (t : Nat) :
    ∀ bs : List Batch, (fetchedOffs tp bs).Pairwise (· < ·) →
      ConsumeInv tp (fetchedOffs tp bs) (consume w t bs).1 (consume w t bs).2 := by
  intro bs
  induction bs with
  | nil =>
    intro _
    exact inv_of_no_tp_events tp [] _ rfl rfl
  | cons b bs ih =>
    intro hasc
    rcases hb : processBatch w t b with ⟨trB, resB⟩
    have hinv : ConsumeInv tp (batchOffs tp b) trB resB := by
      have := batch_inv w tp t b (List.pairwise_append.mp hasc).1
      rw [hb] at this
      exact this
    cases resB with
    | error e =>
      rw [consume_cons_err w t b bs trB e hb]
      have h1 := inv_error_widen tp (batchOffs tp b) (fetchedOffs tp bs) trB e hasc hinv
      have h2 := inv_prepend tp _ [Event.fetch] trB (Except.error e)
        (by exact hasc) rfl rfl h1
      exact h2
    | ok u =>
      cases u
      rw [consume_cons_ok w t b bs trB hb]
      have h1 := inv_append tp (batchOffs tp b) (fetchedOffs tp bs) trB
        (consume w t bs).1 (consume w t bs).2 hasc hinv
        (ih (List.pairwise_append.mp hasc).2.1)
      have h2 := inv_prepend tp _ [Event.fetch] (trB ++ (consume w t bs).1)
        (consume w t bs).2 (by exact hasc) rfl rfl h1
      exact h2

/-! ### Claim C1 -/

/-- Claim C1: if the offsets fetched for a topic-partition `tp` arrive in
strictly ascending order, then in the trace of the consume loop the handler
invocations for `tp` occur in ascending-offset order, the commit requests for
`tp` are issued in ascending order, and no commit request for `tp` is issued
before every fetched message of `tp` at a lower offset has had a successful
handler invocation strictly earlier in the trace (commit value is always
`offset + 1`, so a request of `n + 1` requires every fetched offset `≤ n` to
be handled first). -/
theorem consume_commit_invariant (w : World) (t : Nat) (bs : List Batch) (tp : TP)
    (hasc : (fetchedOffs tp bs).Pairwise (· < ·)) :
    (handlerOffs tp (consume w t bs).1).Pairwise (· ≤ ·) ∧
    (commitReqs tp (consume w t bs).1).Pairwise (· ≤ ·) ∧
    noSkip tp (fetchedOffs tp bs) (consume w t bs).1 := by
  obtain ⟨_, _, h3, h4, h5, _⟩ := consume_inv w tp t bs hasc
  exact ⟨h3, h4, h5⟩

/-- Witness for C1 at a concrete two-batch run of the always-succeeding
collaborators. -/
theorem consume_commit_invariant_witness :
    (fetchedOffs tpOrders
      [[(tpOrders, [msgAt 5, msgAt 6])], [(tpOrders, [msgAt 7])]]).Pairwise (· < ·) ∧
    ((handlerOffs tpOrders (consume wOk 500
        [[(tpOrders, [msgAt 5, msgAt 6])], [(tpOrders, [msgAt 7])]]).1).Pairwise (· ≤ ·) ∧
      (commitReqs tpOrders (consume wOk 500
        [[(tpOrders, [msgAt 5, msgAt 6])], [(tpOrders, [msgAt 7])]]).1).Pairwise (· ≤ ·) ∧
      noSkip tpOrders
        (fetchedOffs tpOrders [[(tpOrders, [msgAt 5, msgAt 6])], [(tpOrders, [msgAt 7])]])
        (consume wOk 500 [[(tpOrders, [msgAt 5, msgAt 6])], [(tpOrders, [msgAt 7])]]).1) :=
  ⟨by decide, consume_commit_invariant wOk 500
    [[(tpOrders, [msgAt 5, msgAt 6])], [(tpOrders, [msgAt 7])]] tpOrders (by decide)⟩

/-! ### Claim C8 -/

/-- Claim C8: a batch entry with an empty message sequence causes no handler
invocation and no commit call — the loop only sleeps exactly
`consumer_timeout_ms` milliseconds and goes on (to the next poll, or to the
remaining entries of the same batch); this is not an error and involves no
retry. -/
theorem empty_batch_idle (w : World) (t : Nat) (tp : TP) (bs : List Batch)
    (es : Batch) :
    consume w t ([(tp, [])] :: bs) =
      (Event.fetch :: Event.sleepMs t :: (consume w t bs).1, (consume w t bs).2) ∧
    processBatch w t ((tp, []) :: es) =
      (Event.sleepMs t :: (processBatch w t es).1, (processBatch w t es).2) := by
  constructor
  · have h : processBatch w t [(tp, [])] = ([Event.sleepMs t], Except.ok ()) := by
      rw [processBatch_cons_ok w t (tp, []) [] _ (processEntry_nil w t tp)]
      simp [processBatch]
    rw [consume_cons_ok w t [(tp, [])] bs _ h]
    rfl
  · rw [processBatch_cons_ok w t (tp, []) es _ (processEntry_nil w t tp)]
    rfl

/-! ### Clean-path evaluations of one message -/

theorem handleMessage_clean (w : World) (tp : TP) (m : Message)
    (hh : w.handlerRes tp m 0 = none) (hc : w.commitRes tp (m.offset + 1) 0 = none) :
    handleMessage w tp m =
      ([Event.handlerCall tp m.offset true, Event.commitCall tp (m.offset + 1) true],
        Except.ok ()) := by
  have h1 := retryOp_first_ok (Event.handlerCall tp m.offset) (w.handlerRes tp m) 5000 hh
  have h2 := handleMessage_ok w tp m _ h1
  rw [retryOp_first_ok (Event.commitCall tp (m.offset + 1))
    (w.commitRes tp (m.offset + 1)) 5000 hc] at h2
  simpa using h2

theorem handleMessage_fail3 (w : World) (tp : TP) (m : Message) (e0 e1 e2 : Err)
    (h0 : w.handlerRes tp m 0 = some e0) (h1 : w.handlerRes tp m 1 = some e1)
    (h2 : w.handlerRes tp m 2 = some e2) :
    handleMessage w tp m =
      ([Event.handlerCall tp m.offset false, Event.sleepMs 5000,
        Event.handlerCall tp m.offset false, Event.sleepMs 5000,
        Event.handlerCall tp m.offset false], Except.error e2) :=
  handleMessage_err w tp m _ e2
    (retryOp_all_fail (Event.handlerCall tp m.offset) (w.handlerRes tp m) 5000
      e0 e1 e2 h0 h1 h2)

theorem handleMessage_third (w : World) (tp : TP) (m : Message) (e0 e1 : Err)
    (h0 : w.handlerRes tp m 0 = some e0) (h1 : w.handlerRes tp m 1 = some e1)
    (h2 : w.handlerRes tp m 2 = none) (hc : w.commitRes tp (m.offset + 1) 0 = none) :
    handleMessage w tp m =
      ([Event.handlerCall tp m.offset false, Event.sleepMs 5000,
        Event.handlerCall tp m.offset false, Event.sleepMs 5000,
        Event.handlerCall tp m.offset true, Event.commitCall tp (m.offset + 1) true],
        Except.ok ()) := by
  have hH := retryOp_third_ok (Event.handlerCall tp m.offset) (w.handlerRes tp m) 5000
    e0 e1 h0 h1 h2
  have hB := handleMessage_ok w tp m _ hH
  rw [retryOp_first_ok (Event.commitCall tp (m.offset + 1))
    (w.commitRes tp (m.offset + 1)) 5000 hc] at hB
  simpa using hB

/-! ### Claim C2 -/

/-- Claim C2: on a single-partition batch holding offsets 5, 6, 7, if the
handler succeeds on each message (and each commit succeeds), the loop issues
exactly three commit calls, one per message, requesting 6, then 7, then 8 —
each the message's offset plus one — in that order, interleaved
handler-then-commit, and nothing else. -/
theorem commit_per_message_batch (w : World) (t : Nat) (tp : TP)
    (m5 m6 m7 : Message) (h5 : m5.offset = 5) (h6 : m6.offset = 6)
    (h7 : m7.offset = 7)
    (hh5 : w.handlerRes tp m5 0 = none) (hh6 : w.handlerRes tp m6 0 = none)
    (hh7 : w.handlerRes tp m7 0 = none)
    (hc6 : w.commitRes tp 6 0 = none) (hc7 : w.commitRes tp 7 0 = none)
    (hc8 : w.commitRes tp 8 0 = none) :
    consume w t [[(tp, [m5, m6, m7])]] =
      ([Event.fetch, Event.handlerCall tp 5 true, Event.commitCall tp 6 true,
        Event.handlerCall tp 6 true, Event.commitCall tp 7 true,
        Event.handlerCall tp 7 true, Event.commitCall tp 8 true], Except.ok ()) ∧
    commitReqs tp (consume w t [[(tp, [m5, m6, m7])]]).1 = [6, 7, 8] := by
  have e5 := handleMessage_clean w tp m5 hh5 (by rw [h5]; exact hc6)
  have e6 := handleMessage_clean w tp m6 hh6 (by rw [h6]; exact hc7)
  have e7 := handleMessage_clean w tp m7 hh7 (by rw [h7]; exact hc8)
  rw [h5] at e5
  rw [h6] at e6
  rw [h7] at e7
  have p3 : processMessages w tp [m7] =
      ([Event.handlerCall tp 7 true, Event.commitCall tp 8 true], Except.ok ()) := by
    rw [processMessages_cons_ok w tp m7 [] _ e7]
    simp [processMessages]
  have p2 : processMessages w tp [m6, m7] =
      ([Event.handlerCall tp 6 true, Event.commitCall tp 7 true,
        Event.handlerCall tp 7 true, Event.commitCall tp 8 true], Except.ok ()) := by
    rw [processMessages_cons_ok w tp m6 [m7] _ e6, p3]
    simp
  have p1 : processMessages w tp [m5, m6, m7] =
      ([Event.handlerCall tp 5 true, Event.commitCall tp 6 true,
        Event.handlerCall tp 6 true, Event.commitCall tp 7 true,
        Event.handlerCall tp 7 true, Event.commitCall tp 8 true], Except.ok ()) := by
    rw [processMessages_cons_ok w tp m5 [m6, m7] _ e5, p2]
    simp
  have pe : processEntry w t (tp, [m5, m6, m7]) =
      ([Event.handlerCall tp 5 true, Event.commitCall tp 6 true,
        Event.handlerCall tp 6 true, Event.commitCall tp 7 true,
        Event.handlerCall tp 7 true, Event.commitCall tp 8 true], Except.ok ()) := by
    rw [processEntry_cons w t tp m5 [m6, m7], p1]
  have pb : processBatch w t [(tp, [m5, m6, m7])] =
      ([Event.handlerCall tp 5 true, Event.commitCall tp 6 true,
        Event.handlerCall tp 6 true, Event.commitCall tp 7 true,
        Event.handlerCall tp 7 true, Event.commitCall tp 8 true], Except.ok ()) := by
    rw [processBatch_cons_ok w t (tp, [m5, m6, m7]) [] _ pe]
    simp [processBatch]
  have hmain : consume w t [[(tp, [m5, m6, m7])]] =
      ([Event.fetch, Event.handlerCall tp 5 true, Event.commitCall tp 6 true,
        Event.handlerCall tp 6 true, Event.commitCall tp 7 true,
        Event.handlerCall tp 7 true, Event.commitCall tp 8 true], Except.ok ()) := by
    rw [consume_cons_ok w t [(tp, [m5, m6, m7])] [] _ pb]
    simp [consume]
  refine ⟨hmain, ?_⟩
  rw [hmain]
  simp [commitReqs]

/-- Witness for C2 with the always-succeeding collaborators. -/
theorem commit_per_message_batch_witness :
    consume wOk 500 [[(tpOrders, [msgAt 5, msgAt 6, msgAt 7])]] =
      ([Event.fetch, Event.handlerCall tpOrders 5 true,
        Event.commitCall tpOrders 6 true, Event.handlerCall tpOrders 6 true,
        Event.commitCall tpOrders 7 true, Event.handlerCall tpOrders 7 true,
        Event.commitCall tpOrders 8 true], Except.ok ()) ∧
    commitReqs tpOrders
      (consume wOk 500 [[(tpOrders, [msgAt 5, msgAt 6, msgAt 7])]]).1 = [6, 7, 8] :=
  commit_per_message_batch wOk 500 tpOrders (msgAt 5) (msgAt 6) (msgAt 7)
    rfl rfl rfl rfl rfl rfl rfl rfl rfl

/-! ### Unfolding lemmas for one start attempt -/

theorem startOnce_open_err (w : World) (t : Nat) (bs : List Batch) (tr : List Event)
    (e : Err) (h : retryCall 3 5000 (opAttempt Event.openCall w.openRes) =
      (tr, Except.error e)) :
    startOnce w t bs = (tr, Except.error e) := by
  simp [startOnce, h]

theorem startOnce_close_err (w : World) (t : Nat) (bs : List Batch)
    (trO trC : List Event) (e2 : Err)
    (ho : retryCall 3 5000 (opAttempt Event.openCall w.openRes) = (trO, Except.ok ()))
    (hc : retryCall 3 5000 (opAttempt Event.closeCall w.closeRes) =
      (trC, Except.error e2)) :
    startOnce w t bs = (trO ++ (consume w t bs).1 ++ trC, Except.error e2) := by
  simp [startOnce, ho, hc]

theorem startOnce_close_ok (w : World) (t : Nat) (bs : List Batch)
    (trO trC : List Event)
    (ho : retryCall 3 5000 (opAttempt Event.openCall w.openRes) = (trO, Except.ok ()))
    (hc : retryCall 3 5000 (opAttempt Event.closeCall w.closeRes) =
      (trC, Except.ok ())) :
    startOnce w t bs = (trO ++ (consume w t bs).1 ++ trC, (consume w t bs).2) := by
  simp [startOnce, ho, hc]

/-! ### Claim C3 -/

/-- Counterexample to claim C3 as stated: with a handler that always fails
(`HandlerError "boom"` ends the Running loop) and a close that always fails
(`DisconnectError "bye"`), the error surfaced by the start attempt is the
close failure, not the original loop error — the `finally` block's failure
replaces the in-flight error. -/
theorem close_failure_masks_counterexample :
    (consume wMask 500 [[(tpOrders, [msgAt 5])]]).2 =
      Except.error (Err.handlerError "boom") ∧
    (startOnce wMask 500 [[(tpOrders, [msgAt 5])]]).2 =
      Except.error (Err.disconnectError "bye") ∧
    (startOnce wMask 500 [[(tpOrders, [msgAt 5])]]).2 ≠
      Except.error (Err.handlerError "boom") := by
  refine ⟨rfl, rfl, ?_⟩
  decide

/-- Claim C3 as amended: when the session close fails after its retries are
exhausted, the error re-raised from that start attempt is the close failure —
it masks whatever error (if any) the Running loop exited with. -/
theorem close_failure_masks (w : World) (t : Nat) (bs : List Batch) (e2 : Err)
    (hopen : (retryCall 3 5000 (opAttempt Event.openCall w.openRes)).2 =
      Except.ok ())
    (hclose : (retryCall 3 5000 (opAttempt Event.closeCall w.closeRes)).2 =
      Except.error e2) :
    (startOnce w t bs).2 = Except.error e2 := by
  rcases ho : retryCall 3 5000 (opAttempt Event.openCall w.openRes) with ⟨trO, resO⟩
  rcases hc : retryCall 3 5000 (opAttempt Event.closeCall w.closeRes) with ⟨trC, resC⟩
  rw [ho] at hopen
  rw [hc] at hclose
  cases hopen
  cases hclose
  rw [startOnce_close_err w t bs trO trC e2 ho hc]

/-- Witness for the amended C3 at the concrete masking collaborators. -/
theorem close_failure_masks_witness :
    (retryCall 3 5000 (opAttempt Event.openCall wMask.openRes)).2 = Except.ok () ∧
    (retryCall 3 5000 (opAttempt Event.closeCall wMask.closeRes)).2 =
      Except.error (Err.disconnectError "bye") ∧
    (startOnce wMask 500 [[(tpOrders, [msgAt 6])]]).2 =
      Except.error (Err.disconnectError "bye") :=
  ⟨rfl, rfl, close_failure_masks wMask 500 [[(tpOrders, [msgAt 6])]]
    (Err.disconnectError "bye") rfl rfl⟩

/-! ### Claim C4 -/

/-- Claim C4: when the first message's handler fails on all three retry
attempts, no commit call at all is issued, the Running loop terminates with
the handler's final error, the start attempt surfaces that same error, and the
session close is invoked exactly once (it succeeds at its first attempt). -/
theorem handler_fail3_no_commit (w : World) (t : Nat) (tp : TP) (m : Message)
    (ms : List Message) (es : Batch) (bs' : List Batch) (e0 e1 e2 : Err)
    (hop : w.openRes 0 = none) (hcl : w.closeRes 0 = none)
    (h0 : w.handlerRes tp m 0 = some e0) (h1 : w.handlerRes tp m 1 = some e1)
    (h2 : w.handlerRes tp m 2 = some e2) :
    commitCount (startOnce w t (((tp, m :: ms) :: es) :: bs')).1 = 0 ∧
    (consume w t (((tp, m :: ms) :: es) :: bs')).2 = Except.error e2 ∧
    (startOnce w t (((tp, m :: ms) :: es) :: bs')).2 = Except.error e2 ∧
    closeCount (startOnce w t (((tp, m :: ms) :: es) :: bs')).1 = 1 := by
  have hm := handleMessage_fail3 w tp m e0 e1 e2 h0 h1 h2
  have pm := processMessages_cons_err w tp m ms _ e2 hm
  have pe : processEntry w t (tp, m :: ms) =
      ([Event.handlerCall tp m.offset false, Event.sleepMs 5000,
        Event.handlerCall tp m.offset false, Event.sleepMs 5000,
        Event.handlerCall tp m.offset false], Except.error e2) := by
    rw [processEntry_cons w t tp m ms]
    exact pm
  have pb := processBatch_cons_err w t (tp, m :: ms) es _ e2 pe
  have hc := consume_cons_err w t ((tp, m :: ms) :: es) bs' _ e2 pb
  have ho := retryOp_first_ok Event.openCall w.openRes 5000 hop
  have hcl' := retryOp_first_ok Event.closeCall w.closeRes 5000 hcl
  have hs := startOnce_close_ok w t (((tp, m :: ms) :: es) :: bs') _ _ ho hcl'
  rw [hc] at hs
  refine ⟨?_, ?_, ?_, ?_⟩
  · rw [hs]; rfl
  · rw [hc]
  · rw [hs]
  · rw [hs]; rfl

/-- Witness for C4 with the always-failing handler. -/
theorem handler_fail3_no_commit_witness :
    commitCount (startOnce wFailH 500
      [[(tpOrders, [msgAt 5, msgAt 6])]]).1 = 0 ∧
    (consume wFailH 500 [[(tpOrders, [msgAt 5, msgAt 6])]]).2 =
      Except.error (Err.handlerError "boom") ∧
    (startOnce wFailH 500 [[(tpOrders, [msgAt 5, msgAt 6])]]).2 =
      Except.error (Err.handlerError "boom") ∧
    closeCount (startOnce wFailH 500 [[(tpOrders, [msgAt 5, msgAt 6])]]).1 = 1 :=
  handler_fail3_no_commit wFailH 500 tpOrders (msgAt 5) [msgAt 6] [] []
    (Err.handlerError "boom") (Err.handlerError "boom") (Err.handlerError "boom")
    rfl rfl rfl rfl rfl

/-! ### Claim C5 -/

/-- Claim C5: a handler that fails on attempts 1 and 2 and succeeds on attempt
3 causes exactly one commit call, requesting the message's offset plus one,
and the loop result is success — the failures are absorbed by the retry
policy and no error reaches the caller. -/
theorem handler_retry_absorbed (w : World) (t : Nat) (tp : TP) (m : Message)
    (e0 e1 : Err) (h0 : w.handlerRes tp m 0 = some e0)
    (h1 : w.handlerRes tp m 1 = some e1) (h2 : w.handlerRes tp m 2 = none)
    (hcm : w.commitRes tp (m.offset + 1) 0 = none) :
    consume w t [[(tp, [m])]] =
      ([Event.fetch, Event.handlerCall tp m.offset false, Event.sleepMs 5000,
        Event.handlerCall tp m.offset false, Event.sleepMs 5000,
        Event.handlerCall tp m.offset true,
        Event.commitCall tp (m.offset + 1) true], Except.ok ()) ∧
    commitReqs tp (consume w t [[(tp, [m])]]).1 = [m.offset + 1] ∧
    commitCount (consume w t [[(tp, [m])]]).1 = 1 := by
  have hm := handleMessage_third w tp m e0 e1 h0 h1 h2 hcm
  have pm : processMessages w tp [m] =
      ([Event.handlerCall tp m.offset false, Event.sleepMs 5000,
        Event.handlerCall tp m.offset false, Event.sleepMs 5000,
        Event.handlerCall tp m.offset true,
        Event.commitCall tp (m.offset + 1) true], Except.ok ()) := by
    rw [processMessages_cons_ok w tp m [] _ hm]
    simp [processMessages]
  have pe : processEntry w t (tp, [m]) =
      ([Event.handlerCall tp m.offset false, Event.sleepMs 5000,
        Event.handlerCall tp m.offset false, Event.sleepMs 5000,
        Event.handlerCall tp m.offset true,
        Event.commitCall tp (m.offset + 1) true], Except.ok ()) := by
    rw [processEntry_cons w t tp m []]
    exact pm
  have pb : processBatch w t [(tp, [m])] =
      ([Event.handlerCall tp m.offset false, Event.sleepMs 5000,
        Event.handlerCall tp m.offset false, Event.sleepMs 5000,
        Event.handlerCall tp m.offset true,
        Event.commitCall tp (m.offset + 1) true], Except.ok ()) := by
    rw [processBatch_cons_ok w t (tp, [m]) [] _ pe]
    simp [processBatch]
  have hmain : consume w t [[(tp, [m])]] =
      ([Event.fetch, Event.handlerCall tp m.offset false, Event.sleepMs 5000,
        Event.handlerCall tp m.offset false, Event.sleepMs 5000,
        Event.handlerCall tp m.offset true,
        Event.commitCall tp (m.offset + 1) true], Except.ok ()) := by
    rw [consume_cons_ok w t [(tp, [m])] [] _ pb]
    simp [consume]
  refine ⟨hmain, ?_, ?_⟩
  · rw [hmain]
    simp [commitReqs]
  · rw [hmain]
    rfl

/-- Witness for C5 with the succeed-on-third-attempt handler. -/
theorem handler_retry_absorbed_witness :
    consume wThird 500 [[(tpOrders, [msgAt 5])]] =
      ([Event.fetch, Event.handlerCall tpOrders 5 false, Event.sleepMs 5000,
        Event.handlerCall tpOrders 5 false, Event.sleepMs 5000,
        Event.handlerCall tpOrders 5 true,
        Event.commitCall tpOrders 6 true], Except.ok ()) ∧
    commitReqs tpOrders (consume wThird 500 [[(tpOrders, [msgAt 5])]]).1 = [6] ∧
    commitCount (consume wThird 500 [[(tpOrders, [msgAt 5])]]).1 = 1 :=
  handler_retry_absorbed wThird 500 tpOrders (msgAt 5)
    (Err.handlerError "boom") (Err.handlerError "boom") rfl rfl rfl rfl

/-! ### Claim C9 -/

/-- Claim C9: when opening the session fails on all three retry attempts, the
start attempt consists of exactly those three open attempts (5s apart), ends
with the final open error, and never invokes the session close — the consume
loop is never entered either. -/
theorem open_fail_no_close (w : World) (t : Nat) (bs : List Batch) (e0 e1 e2 : Err)
    (h0 : w.openRes 0 = some e0) (h1 : w.openRes 1 = some e1)
    (h2 : w.openRes 2 = some e2) :
    startOnce w t bs =
      ([Event.openCall false, Event.sleepMs 5000, Event.openCall false,
        Event.sleepMs 5000, Event.openCall false], Except.error e2) ∧
    closeCount (startOnce w t bs).1 = 0 ∧
    (∀ b, Event.closeCall b ∉ (startOnce w t bs).1) := by
  have ho := retryOp_all_fail Event.openCall w.openRes 5000 e0 e1 e2 h0 h1 h2
  have hs := startOnce_open_err w t bs _ e2 ho
  refine ⟨hs, ?_, ?_⟩
  · rw [hs]; rfl
  · intro b hb
    rw [hs] at hb
    simp at hb

/-- Witness for C9 with the never-opening session. -/
theorem open_fail_no_close_witness :
    startOnce wOpenFail 500 [[(tpOrders, [msgAt 5])]] =
      ([Event.openCall false, Event.sleepMs 5000, Event.openCall false,
        Event.sleepMs 5000, Event.openCall false],
        Except.error (Err.connectionError "down")) ∧
    closeCount (startOnce wOpenFail 500 [[(tpOrders, [msgAt 5])]]).1 = 0 ∧
    (∀ b, Event.closeCall b ∉ (startOnce wOpenFail 500 [[(tpOrders, [msgAt 5])]]).1) :=
  open_fail_no_close wOpenFail 500 [[(tpOrders, [msgAt 5])]]
    (Err.connectionError "down") (Err.connectionError "down")
    (Err.connectionError "down") rfl rfl rfl

/-! ### Claim C6 -/

/-- Claim C6: when opening the session fails on every attempt, each of the
three outer attempts of `start` performs three open attempts 5 seconds apart,
consecutive outer attempts are 15 seconds apart, nothing beyond Opening runs,
and after the outer retry is exhausted the final open error is surfaced to the
caller. -/
theorem open_fail_outer_retry (ws : Nat → World) (t : Nat) (bss : Nat → List Batch)
    (e : Nat → Nat → Err) (h : ∀ k j, (ws k).openRes j = some (e k j)) :
    start ws t bss =
      ([Event.openCall false, Event.sleepMs 5000, Event.openCall false,
        Event.sleepMs 5000, Event.openCall false] ++ Event.sleepMs 15000 ::
        ([Event.openCall false, Event.sleepMs 5000, Event.openCall false,
          Event.sleepMs 5000, Event.openCall false] ++ Event.sleepMs 15000 ::
          [Event.openCall false, Event.sleepMs 5000, Event.openCall false,
            Event.sleepMs 5000, Event.openCall false]),
        Except.error (e 2 2)) := by
  have att_eq : ∀ k, startOnce (ws k) t (bss k) =
      ([Event.openCall false, Event.sleepMs 5000, Event.openCall false,
        Event.sleepMs 5000, Event.openCall false], Except.error (e k 2)) := fun k =>
    startOnce_open_err (ws k) t (bss k) _ (e k 2)
      (retryOp_all_fail Event.openCall (ws k).openRes 5000
        (e k 0) (e k 1) (e k 2) (h k 0) (h k 1) (h k 2))
  unfold start
  rw [retryCall3_third 15000 (fun k => startOnce (ws k) t (bss k)) _ _ _ _
    (att_eq 0) (att_eq 1)]
  simp [att_eq 2]

/-- Witness for C6 with the never-opening session at every outer attempt. -/
theorem open_fail_outer_retry_witness :
    start (fun _ => wOpenFail) 500 (fun _ => []) =
      ([Event.openCall false, Event.sleepMs 5000, Event.openCall false,
        Event.sleepMs 5000, Event.openCall false] ++ Event.sleepMs 15000 ::
        ([Event.openCall false, Event.sleepMs 5000, Event.openCall false,
          Event.sleepMs 5000, Event.openCall false] ++ Event.sleepMs 15000 ::
          [Event.openCall false, Event.sleepMs 5000, Event.openCall false,
            Event.sleepMs 5000, Event.openCall false]),
        Except.error (Err.connectionError "down")) :=
  open_fail_outer_retry (fun _ => wOpenFail) 500 (fun _ => [])
    (fun _ _ => Err.connectionError "down") (fun _ _ => rfl)

/-! ### Claim C10 -/

theorem processMessages_append_ok (w : World) (tp : TP) :
    ∀ (pre rest : List Message), (processMessages w tp pre).2 = Except.ok () →
      processMessages w tp (pre ++ rest) =
        ((processMessages w tp pre).1 ++ (processMessages w tp rest).1,
          (processMessages w tp rest).2) := by
  intro pre
  induction pre with
  | nil =>
    intro rest _
    simp [processMessages]
  | cons m pre' ih =>
    intro rest hok
    rcases hh : handleMessage w tp m with ⟨tr, res⟩
    cases res with
    | error e =>
      rw [processMessages_cons_err w tp m pre' tr e hh] at hok
      cases hok
    | ok u =>
      cases u
      rw [processMessages_cons_ok w tp m pre' tr hh] at hok
      rw [show (m :: pre') ++ rest = m :: (pre' ++ rest) from rfl,
        processMessages_cons_ok w tp m (pre' ++ rest) tr hh,
        processMessages_cons_ok w tp m pre' tr hh, ih rest hok]
      simp

theorem processEntry_of_nonempty (w : World) (t : Nat) (tp₀ : TP) (l : List Message)
    (hl : l.isEmpty = false) :
    processEntry w t (tp₀, l) = processMessages w tp₀ l := by
  simp [processEntry, hl]

/-- Claim C10: if, within a batch entry, the messages before position `i`
are all processed successfully and the message at position `i` fails
terminally (handler or commit retries exhausted), then the whole run of the
consume loop stops right there: its trace is exactly the fetch, the preceding
messages' events and the failing message's events — nothing for any later
message of that entry, any later entry of that batch, or any later batch —
and it propagates that terminal error. -/
theorem terminal_failure_stops_loop (w : World) (t : Nat) (tp : TP)
    (pre : List Message) (m : Message) (post : List Message) (es : Batch)
    (bs' : List Batch) (e : Err)
    (hpre : (processMessages w tp pre).2 = Except.ok ())
    (hm : (handleMessage w tp m).2 = Except.error e) :
    consume w t (((tp, pre ++ m :: post) :: es) :: bs') =
      (Event.fetch :: ((processMessages w tp pre).1 ++ (handleMessage w tp m).1),
        Except.error e) := by
  rcases hhm : handleMessage w tp m with ⟨trM, resM⟩
  rw [hhm] at hm
  simp only at hm
  subst hm
  have pmm := processMessages_cons_err w tp m post trM e hhm
  have hfull : processMessages w tp (pre ++ m :: post) =
      ((processMessages w tp pre).1 ++ trM, Except.error e) := by
    rw [processMessages_append_ok w tp pre (m :: post) hpre, pmm]
  have hne : (pre ++ m :: post).isEmpty = false := by
    cases pre <;> rfl
  have pe : processEntry w t (tp, pre ++ m :: post) =
      ((processMessages w tp pre).1 ++ trM, Except.error e) := by
    rw [processEntry_of_nonempty w t tp (pre ++ m :: post) hne]
    exact hfull
  have pb := processBatch_cons_err w t (tp, pre ++ m :: post) es _ e pe
  have hc := consume_cons_err w t ((tp, pre ++ m :: post) :: es) bs' _ e pb
  simp [hc, hhm]

/-- Witness for C10: the handler fails exactly on offset 6, so offsets 7, 9
and 8 (in the same entry, a later entry, and a later batch) are never
touched. -/
theorem terminal_failure_stops_loop_witness :
    (processMessages wFail6 tpOrders [msgAt 5]).2 = Except.ok () ∧
    (handleMessage wFail6 tpOrders (msgAt 6)).2 =
      Except.error (Err.handlerError "boom") ∧
    consume wFail6 500
      [[(tpOrders, [msgAt 5, msgAt 6, msgAt 7]), (tpOrders, [msgAt 9])],
        [(tpOrders, [msgAt 8])]] =
      (Event.fetch :: ((processMessages wFail6 tpOrders [msgAt 5]).1 ++
        (handleMessage wFail6 tpOrders (msgAt 6)).1),
        Except.error (Err.handlerError "boom")) :=
  ⟨rfl, rfl, terminal_failure_stops_loop wFail6 500 tpOrders [msgAt 5] (msgAt 6)
    [msgAt 7] [(tpOrders, [msgAt 9])] [[(tpOrders, [msgAt 8])]]
    (Err.handlerError "boom") rfl rfl⟩

/-! ### Claim C7: the retry helper contract in general -/

theorem joinD_pair (d : Nat) (tr : List Event) (trs : List (List Event))
    (h : trs ≠ []) :
    joinD d (tr :: trs) = tr ++ Event.sleepMs d :: joinD d trs := by
  cases trs with
  | nil => exact absurd rfl h
  | cons a as => rfl

theorem range_map_shift {γ : Type} (f : Nat → γ) (s n : Nat) :
    (List.range (n + 1)).map (fun k => f (s + k)) =
      f s :: (List.range n).map (fun k => f (s + 1 + k)) := by
  rw [List.range_succ_eq_map, List.map_cons, List.map_map]
  have hfun : ((fun k => f (s + k)) ∘ Nat.succ) = fun k => f (s + 1 + k) := by
    funext k
    show f (s + (k + 1)) = f (s + 1 + k)
    rw [show s + (k + 1) = s + 1 + k from by omega]
  rw [hfun]
  simp

theorem retryGo_all_fail_eq {α : Type} (d : Nat)
    (att : Nat → List Event × Except Err α) :
    ∀ fuel s, (∀ k, k ≤ fuel → ∃ e, (att (s + k)).2 = Except.error e) →
      retryGo d att s fuel =
        (joinD d ((List.range (fuel + 1)).map fun k => (att (s + k)).1),
          (att (s + fuel)).2) := by
  intro fuel
  induction fuel with
  | zero =>
    intro s _
    show att s = _
    simp [joinD]
  | succ n ih =>
    intro s h
    rcases ha : att s with ⟨tr, res⟩
    rcases h 0 (Nat.zero_le _) with ⟨e, he⟩
    rw [show s + 0 = s from rfl, ha] at he
    simp only at he
    subst he
    rw [retryGo_succ_err d att s n tr e ha]
    have hshift : ∀ k, k ≤ n → ∃ e', (att (s + 1 + k)).2 = Except.error e' := by
      intro k hk
      rcases h (k + 1) (Nat.succ_le_succ hk) with ⟨e', he'⟩
      exact ⟨e', by rwa [show s + (k + 1) = s + 1 + k from by omega] at he'⟩
    rw [ih (s + 1) hshift,
      range_map_shift (fun k => (att k).1) s (n + 1),
      joinD_pair d _ _ (by simp), ha,
      show s + (n + 1) = s + 1 + n from by omega]

theorem retryGo_first_ok_eq {α : Type} (d : Nat)
    (att : Nat → List Event × Except Err α) :
    ∀ fuel s j a, j ≤ fuel → (∀ k, k < j → ∃ e, (att (s + k)).2 = Except.error e) →
      (att (s + j)).2 = Except.ok a →
      retryGo d att s fuel =
        (joinD d ((List.range (j + 1)).map fun k => (att (s + k)).1),
          Except.ok a) := by
  intro fuel
  induction fuel with
  | zero =>
    intro s j a hj _ hok
    have hj0 : j = 0 := Nat.le_zero.mp hj
    subst hj0
    rw [show s + 0 = s from rfl] at hok
    show att s = _
    simp [joinD]
    rw [← hok]
  | succ n ih =>
    intro s j a hj hfail hok
    cases j with
    | zero =>
      rcases ha : att s with ⟨tr, res⟩
      rw [show s + 0 = s from rfl, ha] at hok
      simp only at hok
      subst hok
      rw [retryGo_succ_ok d att s n tr a ha]
      simp [joinD, ha]
    | succ j' =>
      rcases hfail 0 (Nat.succ_pos _) with ⟨e, he⟩
      rcases ha : att s with ⟨tr, res⟩
      rw [show s + 0 = s from rfl, ha] at he
      simp only at he
      subst he
      rw [retryGo_succ_err d att s n tr e ha]
      have hj' : j' ≤ n := Nat.succ_le_succ_iff.mp hj
      have hfail' : ∀ k, k < j' → ∃ e', (att (s + 1 + k)).2 = Except.error e' := by
        intro k hk
        rcases hfail (k + 1) (Nat.succ_lt_succ hk) with ⟨e', he'⟩
        exact ⟨e', by rwa [show s + (k + 1) = s + 1 + k from by omega] at he'⟩
      have hok' : (att (s + 1 + j')).2 = Except.ok a := by
        rwa [show s + (j' + 1) = s + 1 + j' from by omega] at hok
      rw [ih (s + 1) j' a hj' hfail' hok',
        range_map_shift (fun k => (att k).1) s (j' + 1),
        joinD_pair d _ _ (by simp), ha]

/-- Claim C7 (the retry helper is external to this repository and modelled
from the spec): for every operation and every `tries ≥ 1`, the wrapper invokes
the operation starting with attempt 0; between consecutive attempts it sleeps
exactly the fixed delay (no growth); if every attempt up to the last fails,
the trace is exactly the attempt traces joined by single fixed-delay sleeps
and the result is the final attempt's error, propagated unchanged; if some
attempt succeeds first, the wrapper stops there with that success. -/
theorem retry_contract {α : Type} (tries d : Nat)
    (att : Nat → List Event × Except Err α) (ht : 1 ≤ tries) :
    ((∀ k, k < tries → ∃ e, (att k).2 = Except.error e) →
      retryCall tries d att =
        (joinD d ((List.range tries).map fun k => (att k).1),
          (att (tries - 1)).2)) ∧
    (∀ j a, j < tries → (∀ k, k < j → ∃ e, (att k).2 = Except.error e) →
      (att j).2 = Except.ok a →
      retryCall tries d att =
        (joinD d ((List.range (j + 1)).map fun k => (att k).1), Except.ok a)) := by
  rcases Nat.exists_eq_add_of_le ht with ⟨t', ht'⟩
  have htries : tries = t' + 1 := by omega
  subst htries
  constructor
  · intro hall
    have h0 : ∀ k, k ≤ t' → ∃ e, (att (0 + k)).2 = Except.error e := by
      intro k hk
      rcases hall k (by omega) with ⟨e, he⟩
      exact ⟨e, by simpa using he⟩
    have := retryGo_all_fail_eq d att t' 0 h0
    rw [retryCall, show t' + 1 - 1 = t' from by omega, this]
    simp
  · intro j a hj hfail hok
    have hfail0 : ∀ k, k < j → ∃ e, (att (0 + k)).2 = Except.error e := by
      intro k hk
      rcases hfail k hk with ⟨e, he⟩
      exact ⟨e, by simpa using he⟩
    have hok0 : (att (0 + j)).2 = Except.ok a := by simpa using hok
    have := retryGo_first_ok_eq d att t' 0 j a (by omega) hfail0 hok0
    rw [retryCall, show t' + 1 - 1 = t' from by omega, this]
    simp

/-- Witness for C7: two always-failing attempts with a 7000 ms delay. -/
theorem retry_contract_witness :
    retryCall 2 7000
      (fun _ => ([Event.openCall false],
        (Except.error (Err.connectionError "x") : Except Err Unit))) =
      ([Event.openCall false, Event.sleepMs 7000, Event.openCall false],
        Except.error (Err.connectionError "x")) := by
  have h := (retry_contract 2 7000
    (fun _ => ([Event.openCall false],
      (Except.error (Err.connectionError "x") : Except Err Unit)))
    (by omega)).1 (fun k _ => ⟨Err.connectionError "x", rfl⟩)
  simpa [joinD] using h

end KafkaConsumer
